import Mathlib

/-!
Verification development for the Minesweeper repository.

Shallow embedding of the core data model and operations:
- src/core/cell.py, src/core/board.py, src/core/board_view.py (grid, reveal,
  flood fill, flag, win/loss checks, read-only view),
- src/engine/game_controller.py (the controller step),
- src/agents/prolog/engine.py (the Prolog fact store and the tiered deduce
  dispatch; the consulted rule file kb.pl is not part of the source tree, so
  the individual tier rules are modelled from the specification),
- src/agents/prolog/prolog_agent.py (move queue, observation buffer, the
  blocking oracle hand-off with stale-entry draining).

Python integers are embedded as Int (counts that are only ever incremented
as Nat), Python lists as List, the mutable grid as a total function from
integer coordinates to cells updated functionally, raised exceptions as
Except.error, and a blocking queue receive as consumption from an explicit
arrival stream.  Randomness (mine sampling, the random opening move) is
embedded by passing the sampled value as an explicit parameter.
-/

namespace Minesweeper

/-- Visible state of a Minesweeper cell (src/core/cell.py, CellState). -/
inductive CellState where
  | HIDDEN
  | REVEALED
  | FLAGGED
deriving DecidableEq, Repr

/-- A single cell of the grid (src/core/cell.py, Cell), with its defaults. -/
structure Cell where
  has_mine : Bool := false
  adjacent_mines : Nat := 0
  state : CellState := CellState.HIDDEN
deriving DecidableEq, Repr

/-- Integer board coordinates (row, col). -/
abbrev Coord := Int × Int

/-- State of src/core/board.py, Board.  The list-of-lists grid is embedded as
a total function from coordinates to cells together with the dimensions; all
accesses in the source go through in-bounds indices. -/
structure Board where
  rows : Nat
  cols : Nat
  grid : Int → Int → Cell
  mines_placed : Bool
  safe_left : Int
  lost : Bool
  flags : Int

/-- Board._validate_coord: bounds check. -/
def validate_coord (rows cols : Nat) (row col : Int) : Bool :=
  if row < 0 ∨ (rows : Int) ≤ row ∨ col < 0 ∨ (cols : Int) ≤ col then false else true

/-- Board._neighbors: the up-to-8 in-bounds adjacent coordinates, produced in
the source iteration order (d_row then d_col over -1, 0, 1, skipping (0,0)). -/
def neighbors (rows cols : Nat) (row col : Int) : List Coord :=
  ([-1, 0, 1] : List Int).flatMap (fun d_row =>
    ([-1, 0, 1] : List Int).flatMap (fun d_col =>
      if d_row = 0 ∧ d_col = 0 then []
      else if validate_coord rows cols (row + d_row) (col + d_col) then
        [(row + d_row, col + d_col)]
      else []))

/-- Functional update of one grid cell. -/
def updateCell (g : Int → Int → Cell) (row col : Int) (f : Cell → Cell) :
    Int → Int → Cell :=
  fun r c => if r = row ∧ c = col then f (g r c) else g r c

/-- First loop of Board._place_mines: mark each sampled coordinate as a mine. -/
def mineLoop (g : Int → Int → Cell) (mines_coord : List Coord) : Int → Int → Cell :=
  mines_coord.foldl (fun g m => updateCell g m.1 m.2 (fun cell => { cell with has_mine := true })) g

/-- Inner loop of the second pass of Board._place_mines: bump the adjacent-mine
count of every non-mine cell in the supplied neighbor list. -/
def bumpLoop (g : Int → Int → Cell) (ns : List Coord) : Int → Int → Cell :=
  ns.foldl (fun g n =>
    if (g n.1 n.2).has_mine then g
    else updateCell g n.1 n.2 (fun cell => { cell with adjacent_mines := cell.adjacent_mines + 1 })) g

/-- Second loop of Board._place_mines: for each placed mine, bump its non-mine
neighbors. -/
def adjLoop (rows cols : Nat) (g : Int → Int → Cell) (mines_coord : List Coord) :
    Int → Int → Cell :=
  mines_coord.foldl (fun g m => bumpLoop g (neighbors rows cols m.1 m.2)) g

/-- Board._place_mines with the random sample passed explicitly: the source
draws `mines_coord` by random.Random().sample from the allowed coordinate
list; here the drawn list is a parameter. -/
def place_mines_with (b : Board) (mines_coord : List Coord) : Board :=
  { b with grid := adjLoop b.rows b.cols (mineLoop b.grid mines_coord) mines_coord }

/-- The row-major coordinate list built at the start of Board._place_mines. -/
def coords_list (rows cols : Nat) : List Coord :=
  (List.range rows).flatMap (fun row =>
    (List.range cols).map (fun col => (Int.ofNat row, Int.ofNat col)))

/-- The candidate mine coordinates after Board._place_mines removes the
excluded first-click coordinate and each of its neighbors. -/
def allowed_mine_coords (rows cols : Nat) (exclude : Coord) : List Coord :=
  (neighbors rows cols exclude.1 exclude.2).foldl (fun l n => l.erase n)
    ((coords_list rows cols).erase exclude)

/-- Board._flood, fuel-indexed.  The source function iterates over the
neighbor list of one cell, revealing every still-hidden entry and recursing
into entries that are empty non-mines; the shared mutable visited set is the
accumulated `visited` list.  The fuel only bounds the recursion depth (the
source recursion terminates because each recursive call follows a newly
revealed cell); every theorem below holds for every fuel value. -/
def flood (rows cols : Nat) : Nat → Board → List Coord → List Coord → Board × List Coord
  | 0, b, _, visited => (b, visited)
  | _ + 1, b, [], visited => (b, visited)
  | fuel + 1, b, n :: rest, visited =>
    if n ∈ visited then flood rows cols fuel b rest visited
    else
      let cell := b.grid n.1 n.2
      if cell.state ≠ CellState.HIDDEN then flood rows cols fuel b rest visited
      else
        let visited' := visited ++ [n]
        let b' := { b with
          safe_left := b.safe_left - 1,
          grid := updateCell b.grid n.1 n.2 (fun c => { c with state := CellState.REVEALED }) }
        let stepped :=
          if cell.adjacent_mines = 0 ∧ cell.has_mine = false then
            flood rows cols fuel b' (neighbors rows cols n.1 n.2) visited'
          else (b', visited')
        flood rows cols fuel stepped.1 rest stepped.2

/-- Board.reveal with the mine sample passed explicitly (used only when the
mines are not yet placed).  Returns the list of newly revealed coordinates
and the updated board. -/
def reveal (b : Board) (mines_sample : List Coord) (row col : Int) : List Coord × Board :=
  if validate_coord b.rows b.cols row col = false then ([], b)
  else
    let b := if b.mines_placed = false then
        { place_mines_with b mines_sample with mines_placed := true }
      else b
    let cell := b.grid row col
    if cell.state = CellState.FLAGGED ∨ cell.state = CellState.REVEALED then ([], b)
    else if cell.has_mine then
      ([(row, col)],
        { b with
          grid := updateCell b.grid row col (fun c => { c with state := CellState.REVEALED }),
          lost := true })
    else
      let b := { b with
        grid := updateCell b.grid row col (fun c => { c with state := CellState.REVEALED }),
        safe_left := b.safe_left - 1 }
      let visited : List Coord := [(row, col)]
      if cell.adjacent_mines = 0 then
        let r := flood b.rows b.cols (9 * (b.rows * b.cols + 1)) b
          (neighbors b.rows b.cols row col) visited
        (r.2, r.1)
      else (visited, b)

/-- The ValueError message raised by Board.flag on a revealed cell. -/
def flag_error_msg : String :=
  "Invalid move; flagging a revealed cell!"

/-- Board.flag: toggles a flag; raising ValueError on a revealed cell is
embedded as Except.error. -/
def flag (b : Board) (row col : Int) : Except String (Option Bool × Board) :=
  if validate_coord b.rows b.cols row col = false then Except.ok (none, b)
  else
    let cell := b.grid row col
    if cell.state = CellState.REVEALED then Except.error flag_error_msg
    else if cell.state = CellState.HIDDEN then
      Except.ok (some true,
        { b with
          grid := updateCell b.grid row col (fun c => { c with state := CellState.FLAGGED }),
          flags := b.flags + 1 })
    else if cell.state = CellState.FLAGGED then
      Except.ok (some false,
        { b with
          grid := updateCell b.grid row col (fun c => { c with state := CellState.HIDDEN }),
          flags := b.flags - 1 })
    else Except.ok (none, b)

/-- Board.is_finished: when no safe cell is left, flag every remaining hidden
cell (row-major) and report the win together with the newly flagged cells. -/
def is_finished (b : Board) : Bool × List Coord × Board :=
  if b.safe_left ≠ 0 then (false, [], b)
  else
    let r := (coords_list b.rows b.cols).foldl
      (fun (acc : (Int → Int → Cell) × List Coord) p =>
        if (acc.1 p.1 p.2).state = CellState.HIDDEN then
          (updateCell acc.1 p.1 p.2 (fun c => { c with state := CellState.FLAGGED }), acc.2 ++ [p])
        else acc)
      (b.grid, [])
    (true, r.2, { b with grid := r.1 })

/-- src/core/board_view.py, BoardView: a read-only wrapper over the grid. -/
structure BoardView where
  rows : Nat
  cols : Nat
  grid : Int → Int → Cell

/-- Board.view. -/
def Board.view (b : Board) : BoardView :=
  { rows := b.rows, cols := b.cols, grid := b.grid }

/-- BoardView.state. -/
def BoardView.state (v : BoardView) (r c : Int) : CellState :=
  (v.grid r c).state

/-- The ValueError message raised by BoardView.number. -/
def number_error_msg : String :=
  "Cell is not a visible number square"

/-- BoardView.number: the adjacent-mine count of a revealed non-mine cell,
raising (Except.error) otherwise. -/
def BoardView.number (v : BoardView) (r c : Int) : Except String Nat :=
  let cell := v.grid r c
  if cell.state = CellState.REVEALED ∧ cell.has_mine = false then Except.ok cell.adjacent_mines
  else Except.error number_error_msg

/-- BoardView.__getitem__: the pair of the state and, for a revealed cell,
its adjacent-mine count. -/
def BoardView.getElem (v : BoardView) (rc : Coord) : CellState × Option Nat :=
  let cell := v.grid rc.1 rc.2
  (cell.state, if cell.state = CellState.REVEALED then some cell.adjacent_mines else none)

/-- BoardView.__iter__: row-major enumeration of all in-bounds observations. -/
def BoardView.iterList (v : BoardView) : List (Int × Int × CellState × Option Nat) :=
  (List.range v.rows).flatMap (fun r =>
    (List.range v.cols).map (fun c =>
      ((r : Int), (c : Int), v.getElem ((r : Int), (c : Int)))))

/-- src/engine/game_state.py, GameState. -/
inductive GameState where
  | IDLE
  | RUNNING
  | WON
  | LOST
deriving DecidableEq, Repr

/-- src/agents/move.py, MoveType. -/
inductive MoveType where
  | REVEAL
  | FLAG
  | OUT_OF_MOVES
deriving DecidableEq, Repr

/-- src/agents/move.py, Move. -/
structure Move where
  type : MoveType
  r : Int
  c : Int
deriving DecidableEq, Repr

/-- src/engine/game_controller.py, GameController.step, with the agent's
chosen move passed in (the source obtains it from agent.choose_action) and
the mine sample threaded through to Board.reveal.  The bus publications do
not affect the board or the returned state and are omitted.  The except
ValueError branch of the flag case discards the error and keeps the board
unchanged; an uncaught exception would surface as Except.error, so the
returned value being Except.ok means the step completed without aborting. -/
def step (state : GameState) (b : Board) (mines_sample : List Coord) (move : Move) :
    Except String (GameState × Board) :=
  if state ≠ GameState.RUNNING then Except.ok (state, b)
  else if move.type = MoveType.OUT_OF_MOVES then Except.ok (GameState.IDLE, b)
  else
    let b1 :=
      if move.type = MoveType.REVEAL then (reveal b mines_sample move.r move.c).2
      else
        match flag b move.r move.c with
        | Except.ok (_, b') => b'
        | Except.error _ => b
    if b1.lost then Except.ok (GameState.LOST, b1)
    else
      let fin := is_finished b1
      if fin.1 then Except.ok (GameState.WON, fin.2.2)
      else Except.ok (GameState.RUNNING, fin.2.2)

/-- One clause of the Prolog fact database asserted by
src/agents/prolog/engine.py (predicates revealed/3, flagged/2, rows/1,
cols/1).  The database is the ordered clause list; assertz appends at the
end, retract removes the first matching clause. -/
inductive PrologFact where
  | revealed (row col val : Int)
  | flagged (row col : Int)
  | rowsFact (n : Int)
  | colsFact (n : Int)
deriving DecidableEq, Repr

namespace PrologEngine

/-- PrologEngine.feed_revealed_cell: assertz of revealed(row, col, val). -/
def feed_revealed_cell (db : List PrologFact) (row col val : Int) : List PrologFact :=
  db ++ [PrologFact.revealed row col val]

/-- PrologEngine.add_flagged_cell: assertz of flagged(row, col). -/
def add_flagged_cell (db : List PrologFact) (row col : Int) : List PrologFact :=
  db ++ [PrologFact.flagged row col]

/-- PrologEngine.remove_flagged_cell: retract of flagged(row, col). -/
def remove_flagged_cell (db : List PrologFact) (row col : Int) : List PrologFact :=
  db.erase (PrologFact.flagged row col)

end PrologEngine

/-- Modelled from the spec: the rule file kb.pl consulted by PrologEngine is
not part of the source tree, so the derived constraint objects the tier rules
range over are taken from the specification data model: a source coordinate,
its remaining-mine budget, and its list of hidden unflagged neighbors
(list order standing for the Prolog enumeration order). -/
structure Constraint where
  source : Coord
  remaining : Int
  unknowns : List Coord
deriving DecidableEq, Repr

/-- Set-containment of unknown lists (membership-wise). -/
def sub_list (xs ys : List Coord) : Bool :=
  xs.all (fun p => decide (p ∈ ys))

/-- Modelled from the spec: the Tier 1 rule single_sure_mine of the missing
kb.pl — a constraint whose remaining budget equals its number of unknowns
proves all of them mines.  Solutions are enumerated in constraint order. -/
def single_sure_mine (cs : List Constraint) : List Coord :=
  cs.flatMap (fun c => if c.remaining = (c.unknowns.length : Int) then c.unknowns else [])

/-- Modelled from the spec: the Tier 1 rule single_can_reveal of the missing
kb.pl — a constraint with a zero remaining budget proves all unknowns safe. -/
def single_can_reveal (cs : List Constraint) : List Coord :=
  cs.flatMap (fun c => if c.remaining = 0 then c.unknowns else [])

/-- Strict subset of unknown sets, for the Tier 2 rules. -/
def strict_subset (a b : Constraint) : Bool :=
  sub_list a.unknowns b.unknowns && !sub_list b.unknowns a.unknowns

/-- The difference region B.unknowns minus A.unknowns. -/
def subset_diff (a b : Constraint) : List Coord :=
  b.unknowns.filter (fun p => decide (p ∉ a.unknowns))

/-- Modelled from the spec: the Tier 2 rule subset_mine of the missing kb.pl
— for an ordered pair with strictly nested unknowns, the difference region
carries exactly the budget difference, and is all mines when that difference
equals its size. -/
def subset_mine (cs : List Constraint) : List Coord :=
  cs.flatMap (fun a => cs.flatMap (fun b =>
    if strict_subset a b = true ∧
        b.remaining - a.remaining = ((subset_diff a b).length : Int) then
      subset_diff a b
    else []))

/-- Modelled from the spec: the Tier 2 rule subset_safe of the missing kb.pl
— the difference region is all safe when the budget difference is zero. -/
def subset_safe (cs : List Constraint) : List Coord :=
  cs.flatMap (fun a => cs.flatMap (fun b =>
    if strict_subset a b = true ∧ b.remaining - a.remaining = 0 then
      subset_diff a b
    else []))

/-- The shared region A.unknowns intersected with B.unknowns. -/
def inter_region (a b : Constraint) : List Coord :=
  a.unknowns.filter (fun p => decide (p ∈ b.unknowns))

/-- Overlapping, non-subset pair condition of the Tier 3 rules. -/
def overlapping (a b : Constraint) : Bool :=
  !(inter_region a b).isEmpty && !sub_list a.unknowns b.unknowns && !sub_list b.unknowns a.unknowns

/-- Lower bound on the mine count of the shared region, from each
constraint's own budget. -/
def mines_lower (a b : Constraint) : Int :=
  max 0 (max (a.remaining - ((subset_diff b a).length : Int))
    (b.remaining - ((subset_diff a b).length : Int)))

/-- Upper bound on the mine count of the shared region. -/
def mines_upper (a b : Constraint) : Int :=
  min ((inter_region a b).length : Int) (min a.remaining b.remaining)

/-- Modelled from the spec: the Tier 3 rule diff_mine of the missing kb.pl
(reconstruction per the specification, open question noted there) — the
shared region of an overlapping non-subset pair is all mines when its lower
and upper mine-count bounds coincide at its size. -/
def diff_mine (cs : List Constraint) : List Coord :=
  cs.flatMap (fun a => cs.flatMap (fun b =>
    if overlapping a b = true ∧ mines_lower a b = mines_upper a b ∧
        mines_upper a b = ((inter_region a b).length : Int) then
      inter_region a b
    else []))

/-- Modelled from the spec: the Tier 3 rule diff_safe of the missing kb.pl —
the shared region is all safe when the bounds coincide at zero. -/
def diff_safe (cs : List Constraint) : List Coord :=
  cs.flatMap (fun a => cs.flatMap (fun b =>
    if overlapping a b = true ∧ mines_lower a b = mines_upper a b ∧
        mines_upper a b = 0 then
      inter_region a b
    else []))

/-- PrologEngine.deduce (src/agents/prolog/engine.py): Tier 1 queries collect
every solution; the Tier 2 and Tier 3 queries are issued with maxresult=1
(List.take 1), and only when the previous tiers produced nothing; the
solution lists are deduplicated (the Python set comprehension) and turned
into flag moves for mines followed by reveal moves for safe cells. -/
def deduce (cs : List Constraint) : List (Coord × Char) :=
  let mines1 := single_sure_mine cs
  let reveals1 := single_can_reveal cs
  let mines2 := if mines1 = [] ∧ reveals1 = [] then (subset_mine cs).take 1 else mines1
  let reveals2 := if mines1 = [] ∧ reveals1 = [] then (subset_safe cs).take 1 else reveals1
  let mines3 := if mines2 = [] ∧ reveals2 = [] then (diff_mine cs).take 1 else mines2
  let reveals3 := if mines2 = [] ∧ reveals2 = [] then (diff_safe cs).take 1 else reveals2
  mines3.dedup.map (fun p => (p, 'f')) ++ reveals3.dedup.map (fun p => (p, 'r'))

/-- PrologEngine.deduce instrumented with which escalation tiers actually
issued their queries in the pass: the same control flow as deduce, returning
additionally (tier2 ran, tier3 ran). -/
def deduceTrace (cs : List Constraint) : List (Coord × Char) × Bool × Bool :=
  let mines1 := single_sure_mine cs
  let reveals1 := single_can_reveal cs
  let tier2_ran := decide (mines1 = [] ∧ reveals1 = [])
  let mines2 := if mines1 = [] ∧ reveals1 = [] then (subset_mine cs).take 1 else mines1
  let reveals2 := if mines1 = [] ∧ reveals1 = [] then (subset_safe cs).take 1 else reveals1
  let tier3_ran := decide (mines2 = [] ∧ reveals2 = [])
  let mines3 := if mines2 = [] ∧ reveals2 = [] then (diff_mine cs).take 1 else mines2
  let reveals3 := if mines2 = [] ∧ reveals2 = [] then (diff_safe cs).take 1 else reveals2
  (mines3.dedup.map (fun p => (p, 'f')) ++ reveals3.dedup.map (fun p => (p, 'r')),
    tier2_ran, tier3_ran)

/-- The coordinates deduce concluded to be mines (its flag moves). -/
def deduceMines (cs : List Constraint) : List Coord :=
  (deduce cs).filterMap (fun m => if m.2 = 'f' then some m.1 else none)

/-- The coordinates deduce concluded to be safe (its reveal moves). -/
def deduceSafes (cs : List Constraint) : List Coord :=
  (deduce cs).filterMap (fun m => if m.2 = 'r' then some m.1 else none)

/-- State of src/agents/prolog/prolog_agent.py, PrologAgent: the pending move
queue, the buffered not-yet-folded reveal observations, and the engine's
fact database. -/
structure AgentState where
  moves : List Move
  new_reveals : List (Int × Int × Int)
  db : List PrologFact
deriving DecidableEq, Repr

/-- The AttributeError raised on the empty-queue path of choose_action: the
source invokes self._engine.feed_revealed_cells(...), but PrologEngine
(src/agents/prolog/engine.py) defines only feed_revealed_cell, so the
attribute lookup fails before any fact is folded or the buffer cleared. -/
def attribute_error_msg : String :=
  "AttributeError: PrologEngine object has no attribute feed_revealed_cells"

/-- PrologAgent.choose_action: a non-empty queue pops and returns the front
move, touching neither the buffer nor the database; the empty-queue branch
raises AttributeError at its first statement (see attribute_error_msg). -/
def choose_action (st : AgentState) : Except String (Move × AgentState) :=
  match st.moves with
  | [] => Except.error attribute_error_msg
  | m :: rest => Except.ok (m, { st with moves := rest })

/-- src/engine/events.py, Event. -/
inductive Event where
  | FLAG_TILES
  | UNFLAG_TILES
  | REVEAL_TILES
  | GAME_OVER
  | GAME_START
  | NEED_GUESS
  | GUESS_DONE
  | REVEAL_MINE
deriving DecidableEq, Repr

/-- An entry of the click_q oracle channel: (move_type, row, col) as enqueued
by the UI. -/
abbrev OracleEntry := MoveType × Int × Int

/-- The stale-click drain loop of PrologAgent._handle_by_human_agent:
while the queue is non-empty, get_nowait and discard. -/
def drain_stale (q : List OracleEntry) : List OracleEntry :=
  match q with
  | [] => q
  | _ :: rest => drain_stale rest

/-- PrologAgent._handle_by_human_agent: publish NEED_GUESS, drain every entry
currently in the oracle queue, block for one decision, publish GUESS_DONE,
and return the decision as a Move.  The blocking get is embedded against an
explicit stream of entries enqueued after the drain: none models blocking
forever on an empty stream.  Returns the published events, the consumed
move, the queue left after the episode and the unconsumed arrivals. -/
def handle_by_human_agent (q : List OracleEntry) (arrivals : List OracleEntry) :
    Option (List Event × Move × List OracleEntry × List OracleEntry) :=
  let q' := drain_stale q
  match arrivals with
  | [] => none
  | (move_type, row, col) :: rest =>
    some ([Event.NEED_GUESS, Event.GUESS_DONE], ⟨move_type, row, col⟩, q', rest)

/-! Concrete instances used by the example and witness theorems. -/

/-- Two desynchronized constraints proving (1,1) both safe and mine. -/
def cs_both : List Constraint :=
  [⟨(0, 0), 0, [(1, 1)]⟩, ⟨(0, 1), 1, [(1, 1)]⟩]

/-- Constraint pair whose Tier 2 difference is the single safe cell (5,2). -/
def cs_pairA : List Constraint :=
  [⟨(0, 0), 1, [(5, 0), (5, 1)]⟩, ⟨(0, 1), 1, [(5, 0), (5, 1), (5, 2)]⟩]

/-- Constraint pair whose Tier 2 difference is the single safe cell (6,2). -/
def cs_pairB : List Constraint :=
  [⟨(1, 0), 1, [(6, 0), (6, 1)]⟩, ⟨(1, 1), 1, [(6, 0), (6, 1), (6, 2)]⟩]

/-- The two pairs in one order. -/
def cs_ord1 : List Constraint := cs_pairA ++ cs_pairB

/-- The same constraint set supplied in the other order. -/
def cs_ord2 : List Constraint := cs_pairB ++ cs_pairA

/-- A 1 by 3 board with (0,0) already revealed, a hidden mine at (0,1) and a
hidden safe cell at (0,2); mines placed, one safe cell left. -/
def board8 : Board where
  rows := 1
  cols := 3
  grid := fun r c =>
    if r = 0 ∧ c = 0 then { has_mine := false, adjacent_mines := 1, state := CellState.REVEALED }
    else if r = 0 ∧ c = 1 then { has_mine := true, adjacent_mines := 0, state := CellState.HIDDEN }
    else if r = 0 ∧ c = 2 then { has_mine := false, adjacent_mines := 1, state := CellState.HIDDEN }
    else {}
  mines_placed := true
  safe_left := 1
  lost := false
  flags := 0

/-- Common state layout of the two observation-equivalent grids: only (0,0)
is revealed. -/
def wit_state (r c : Int) : CellState :=
  if r = 0 ∧ c = 0 then CellState.REVEALED else CellState.HIDDEN

/-- Grid with a mine hidden at (0,1). -/
def wit_grid1 : Int → Int → Cell :=
  fun r c => { has_mine := decide (r = 0 ∧ c = 1), adjacent_mines := 0, state := wit_state r c }

/-- Grid with no mine anywhere; agrees with wit_grid1 on every state and on
the revealed cell's data. -/
def wit_grid2 : Int → Int → Cell :=
  fun r c => { has_mine := false, adjacent_mines := 0, state := wit_state r c }

/-- View of the mined grid. -/
def wit_view1 : BoardView := { rows := 1, cols := 2, grid := wit_grid1 }

/-- View of the mine-free grid. -/
def wit_view2 : BoardView := { rows := 1, cols := 2, grid := wit_grid2 }

/-- A fresh 2 by 2 board before any mine placement (first_click_safe
construction path: the Board constructor leaves the grid blank and the mines
unplaced). -/
def blank2 : Board where
  rows := 2
  cols := 2
  grid := fun _ _ => {}
  mines_placed := false
  safe_left := 3
  lost := false
  flags := 0

/-- Consistency of a grid with its adjacency counts, as established by
Board._place_mines: a non-mine cell with a zero adjacent-mine count has no
mine among its neighbors. -/
def gridInv (rows cols : Nat) (g : Int → Int → Cell) : Prop :=
  ∀ p q : Coord, validate_coord rows cols p.1 p.2 = true →
    (g p.1 p.2).has_mine = false → (g p.1 p.2).adjacent_mines = 0 →
    q ∈ neighbors rows cols p.1 p.2 → (g q.1 q.2).has_mine = false

/-! Helper lemmas. -/

theorem updateCell_apply (g : Int → Int → Cell) (row col : Int) (f : Cell → Cell) (r c : Int) :
    updateCell g row col f r c = if r = row ∧ c = col then f (g r c) else g r c :=
  rfl

theorem setState_has_mine (g : Int → Int → Cell) (row col : Int) (s : CellState) (r c : Int) :
    (updateCell g row col (fun c0 => { c0 with state := s }) r c).has_mine =
      (g r c).has_mine := by
  by_cases h : r = row ∧ c = col <;> simp [updateCell, h]

theorem setState_adj (g : Int → Int → Cell) (row col : Int) (s : CellState) (r c : Int) :
    (updateCell g row col (fun c0 => { c0 with state := s }) r c).adjacent_mines =
      (g r c).adjacent_mines := by
  by_cases h : r = row ∧ c = col <;> simp [updateCell, h]

theorem mineLoop_has_mine (l : List Coord) (g : Int → Int → Cell) (r c : Int) :
    ((mineLoop g l) r c).has_mine = ((g r c).has_mine || decide ((r, c) ∈ l)) := by
  induction l generalizing g with
  | nil => simp [mineLoop]
  | cons m rest ih =>
    obtain ⟨m1, m2⟩ := m
    simp only [mineLoop, List.foldl_cons] at ih ⊢
    rw [ih]
    by_cases h : r = m1 ∧ c = m2
    · simp [updateCell, h, List.mem_cons, Prod.ext_iff]
    · simp only [updateCell, if_neg h]
      have hne : ¬((r, c) = (m1, m2)) := by
        simp [Prod.ext_iff]
        intro h1 h2
        exact h ⟨h1, h2⟩
      simp [List.mem_cons, hne]

theorem mineLoop_state (l : List Coord) (g : Int → Int → Cell) (r c : Int) :
    ((mineLoop g l) r c).state = (g r c).state := by
  induction l generalizing g with
  | nil => simp [mineLoop]
  | cons m rest ih =>
    simp only [mineLoop, List.foldl_cons] at ih ⊢
    rw [ih]
    by_cases h : r = m.1 ∧ c = m.2 <;> simp [updateCell, h]

theorem mineLoop_adj (l : List Coord) (g : Int → Int → Cell) (r c : Int) :
    ((mineLoop g l) r c).adjacent_mines = (g r c).adjacent_mines := by
  induction l generalizing g with
  | nil => simp [mineLoop]
  | cons m rest ih =>
    simp only [mineLoop, List.foldl_cons] at ih ⊢
    rw [ih]
    by_cases h : r = m.1 ∧ c = m.2 <;> simp [updateCell, h]

theorem bumpLoop_has_mine (ns : List Coord) (g : Int → Int → Cell) (r c : Int) :
    ((bumpLoop g ns) r c).has_mine = (g r c).has_mine := by
  induction ns generalizing g with
  | nil => simp [bumpLoop]
  | cons n rest ih =>
    simp only [bumpLoop, List.foldl_cons] at ih ⊢
    rw [ih]
    by_cases hm : (g n.1 n.2).has_mine
    · simp [hm]
    · by_cases h : r = n.1 ∧ c = n.2 <;> simp [hm, updateCell, h]

theorem bumpLoop_state (ns : List Coord) (g : Int → Int → Cell) (r c : Int) :
    ((bumpLoop g ns) r c).state = (g r c).state := by
  induction ns generalizing g with
  | nil => simp [bumpLoop]
  | cons n rest ih =>
    simp only [bumpLoop, List.foldl_cons] at ih ⊢
    rw [ih]
    by_cases hm : (g n.1 n.2).has_mine
    · simp [hm]
    · by_cases h : r = n.1 ∧ c = n.2 <;> simp [hm, updateCell, h]

theorem bumpLoop_adj_ge (ns : List Coord) (g : Int → Int → Cell) (r c : Int) :
    (g r c).adjacent_mines ≤ ((bumpLoop g ns) r c).adjacent_mines := by
  induction ns generalizing g with
  | nil => simp [bumpLoop]
  | cons n rest ih =>
    simp only [bumpLoop, List.foldl_cons] at ih ⊢
    refine le_trans ?_ (ih _)
    by_cases hm : (g n.1 n.2).has_mine
    · simp [hm]
    · by_cases h : r = n.1 ∧ c = n.2 <;> simp [hm, updateCell, h]

theorem bumpLoop_adj_hit (ns : List Coord) (g : Int → Int → Cell) (r c : Int)
    (h : (r, c) ∈ ns) (hm : (g r c).has_mine = false) :
    (g r c).adjacent_mines + 1 ≤ ((bumpLoop g ns) r c).adjacent_mines := by
  induction ns generalizing g with
  | nil => simp at h
  | cons n rest ih =>
    obtain ⟨n1, n2⟩ := n
    simp only [bumpLoop, List.foldl_cons] at ih ⊢
    by_cases he : (r, c) = (n1, n2)
    · obtain ⟨h1, h2⟩ := Prod.mk.injEq .. ▸ he
      subst h1
      subst h2
      have hstep : ((if (g r c).has_mine = true then g
          else updateCell g r c
            (fun cell => { cell with adjacent_mines := cell.adjacent_mines + 1 })) r c).adjacent_mines =
          (g r c).adjacent_mines + 1 := by
        simp [hm, updateCell]
      calc (g r c).adjacent_mines + 1 = _ := hstep.symm
        _ ≤ _ := bumpLoop_adj_ge rest _ r c
    · have hrest : (r, c) ∈ rest := by
        rcases List.mem_cons.mp h with h | h
        · exact absurd h he
        · exact h
      have hkeep : ∀ g2 : Int → Int → Cell,
          ((if (g2 n1 n2).has_mine = true then g2
            else updateCell g2 n1 n2
              (fun cell => { cell with adjacent_mines := cell.adjacent_mines + 1 })) r c) =
          g2 r c := by
        intro g2
        by_cases hm2 : (g2 n1 n2).has_mine
        · simp [hm2]
        · have hne : ¬(r = n1 ∧ c = n2) := by
            intro hcon
            exact he (by simp [hcon.1, hcon.2])
          simp [hm2, updateCell, hne]
      have := ih ((if (g n1 n2).has_mine = true then g
        else updateCell g n1 n2
          (fun cell => { cell with adjacent_mines := cell.adjacent_mines + 1 }))) hrest
        (by rw [hkeep g]; exact hm)
      rw [hkeep g] at this
      exact this

theorem adjLoop_has_mine (rows cols : Nat) (l : List Coord) (g : Int → Int → Cell) (r c : Int) :
    ((adjLoop rows cols g l) r c).has_mine = (g r c).has_mine := by
  induction l generalizing g with
  | nil => simp [adjLoop]
  | cons m rest ih =>
    simp only [adjLoop, List.foldl_cons] at ih ⊢
    rw [ih, bumpLoop_has_mine]

theorem adjLoop_state (rows cols : Nat) (l : List Coord) (g : Int → Int → Cell) (r c : Int) :
    ((adjLoop rows cols g l) r c).state = (g r c).state := by
  induction l generalizing g with
  | nil => simp [adjLoop]
  | cons m rest ih =>
    simp only [adjLoop, List.foldl_cons] at ih ⊢
    rw [ih, bumpLoop_state]

theorem adjLoop_adj_ge (rows cols : Nat) (l : List Coord) (g : Int → Int → Cell) (r c : Int) :
    (g r c).adjacent_mines ≤ ((adjLoop rows cols g l) r c).adjacent_mines := by
  induction l generalizing g with
  | nil => simp [adjLoop]
  | cons m rest ih =>
    simp only [adjLoop, List.foldl_cons] at ih ⊢
    exact le_trans (bumpLoop_adj_ge _ _ _ _) (ih _)

theorem adjLoop_hit (rows cols : Nat) (l : List Coord) (g : Int → Int → Cell)
    (q p : Coord) (hq : q ∈ l) (hp : p ∈ neighbors rows cols q.1 q.2)
    (hm : (g p.1 p.2).has_mine = false) :
    1 ≤ ((adjLoop rows cols g l) p.1 p.2).adjacent_mines := by
  induction l generalizing g with
  | nil => simp at hq
  | cons m rest ih =>
    simp only [adjLoop, List.foldl_cons] at ih ⊢
    rcases List.mem_cons.mp hq with he | hrest
    · subst he
      have h1 := bumpLoop_adj_hit (neighbors rows cols q.1 q.2) g p.1 p.2 hp hm
      have h2 := adjLoop_adj_ge rows cols rest (bumpLoop g (neighbors rows cols q.1 q.2)) p.1 p.2
      simp only [adjLoop] at h2
      omega
    · exact ih _ hrest (by rw [bumpLoop_has_mine]; exact hm)

theorem mem_neighbors_iff (rows cols : Nat) (row col : Int) (q : Coord) :
    q ∈ neighbors rows cols row col ↔
      validate_coord rows cols q.1 q.2 = true ∧ ¬(q.1 = row ∧ q.2 = col) ∧
      row - 1 ≤ q.1 ∧ q.1 ≤ row + 1 ∧ col - 1 ≤ q.2 ∧ q.2 ≤ col + 1 := by
  obtain ⟨qr, qc⟩ := q
  simp only [neighbors, List.mem_flatMap, List.mem_cons, List.not_mem_nil, or_false]
  constructor
  · rintro ⟨dr, hdr, dc, hdc, hmem⟩
    by_cases h0 : dr = 0 ∧ dc = 0
    · simp [h0] at hmem
    · by_cases hv : validate_coord rows cols (row + dr) (col + dc) = true
      · simp only [if_neg h0, if_pos hv, List.mem_singleton, Prod.mk.injEq] at hmem
        obtain ⟨h1, h2⟩ := hmem
        subst h1
        subst h2
        refine ⟨hv, ?_, by omega, by omega, by omega, by omega⟩
        intro hc
        exact h0 ⟨by omega, by omega⟩
      · simp [h0, hv] at hmem
  · rintro ⟨hv, hne, h1, h2, h3, h4⟩
    refine ⟨qr - row, by omega, qc - col, by omega, ?_⟩
    have h0 : ¬(qr - row = 0 ∧ qc - col = 0) := by
      intro hc
      exact hne ⟨by omega, by omega⟩
    have he1 : row + (qr - row) = qr := by omega
    have he2 : col + (qc - col) = qc := by omega
    rw [if_neg h0, he1, he2, if_pos hv]
    simp

theorem validate_of_mem_neighbors {rows cols : Nat} {row col : Int} {q : Coord}
    (h : q ∈ neighbors rows cols row col) :
    validate_coord rows cols q.1 q.2 = true :=
  ((mem_neighbors_iff rows cols row col q).mp h).1

theorem mem_neighbors_symm {rows cols : Nat} {p q : Coord}
    (hp : validate_coord rows cols p.1 p.2 = true)
    (h : q ∈ neighbors rows cols p.1 p.2) :
    p ∈ neighbors rows cols q.1 q.2 := by
  obtain ⟨p1, p2⟩ := p
  obtain ⟨q1, q2⟩ := q
  rw [mem_neighbors_iff] at h ⊢
  obtain ⟨hv, hne, h1, h2, h3, h4⟩ := h
  refine ⟨hp, ?_, by omega, by omega, by omega, by omega⟩
  intro hc
  exact hne ⟨by omega, by omega⟩

theorem coords_list_nodup (rows cols : Nat) : (coords_list rows cols).Nodup := by
  unfold coords_list
  rw [List.nodup_flatMap]
  constructor
  · intro r hr
    have hinj : Function.Injective (fun col : Nat => (Int.ofNat r, Int.ofNat col)) := by
      intro a b hab
      simpa [Int.ofNat_inj] using hab
    exact (List.nodup_range cols).map hinj
  · refine List.Pairwise.imp ?_ (List.nodup_range rows)
    intro a b hab
    simp only [Function.onFun, List.disjoint_left]
    rintro ⟨x1, x2⟩ hx1 hx2
    simp only [List.mem_map] at hx1 hx2
    obtain ⟨c1, _, hc1⟩ := hx1
    obtain ⟨c2, _, hc2⟩ := hx2
    apply hab
    have ha : (Int.ofNat a, Int.ofNat c1) = (Int.ofNat b, Int.ofNat c2) := by
      rw [hc1, hc2]
    have := congrArg Prod.fst ha
    simpa [Int.ofNat_inj] using this

theorem mem_foldl_erase {l ns : List Coord} {p : Coord} (hnd : l.Nodup)
    (h : p ∈ ns.foldl (fun l n => l.erase n) l) : p ∈ l ∧ p ∉ ns := by
  induction ns generalizing l with
  | nil => exact ⟨h, by simp⟩
  | cons n rest ih =>
    simp only [List.foldl_cons] at h
    have hnd2 : (l.erase n).Nodup := List.Nodup.sublist (l.erase_sublist n) hnd
    obtain ⟨h1, h2⟩ := ih hnd2 h
    have h3 := hnd.mem_erase_iff.mp h1
    refine ⟨h3.2, ?_⟩
    simp only [List.mem_cons]
    rintro (rfl | hr)
    · exact h3.1 rfl
    · exact h2 hr

theorem mem_allowed {rows cols : Nat} {e p : Coord}
    (h : p ∈ allowed_mine_coords rows cols e) :
    p ≠ e ∧ p ∉ neighbors rows cols e.1 e.2 := by
  rw [allowed_mine_coords] at h
  obtain ⟨h1, h2⟩ := mem_foldl_erase
    (List.Nodup.sublist ((coords_list rows cols).erase_sublist e) (coords_list_nodup rows cols)) h
  exact ⟨((coords_list_nodup rows cols).mem_erase_iff.mp h1).1, h2⟩

theorem place_has_mine_iff (b : Board) (sample : List Coord)
    (hmine : ∀ r c, (b.grid r c).has_mine = false) (r c : Int) :
    (((place_mines_with b sample).grid r c).has_mine = true) ↔ (r, c) ∈ sample := by
  simp [place_mines_with, adjLoop_has_mine, mineLoop_has_mine, hmine r c]

theorem place_state (b : Board) (sample : List Coord) (r c : Int) :
    ((place_mines_with b sample).grid r c).state = (b.grid r c).state := by
  simp [place_mines_with, adjLoop_state, mineLoop_state]

theorem place_gridInv (b : Board) (sample : List Coord)
    (hmine : ∀ r c, (b.grid r c).has_mine = false) :
    gridInv b.rows b.cols (place_mines_with b sample).grid := by
  intro p q hv hm h0 hq
  by_contra hqm
  have hqm2 : ((place_mines_with b sample).grid q.1 q.2).has_mine = true := by
    cases hval : ((place_mines_with b sample).grid q.1 q.2).has_mine
    · exact absurd hval hqm
    · rfl
  have hq_sample : q ∈ sample := by
    have := (place_has_mine_iff b sample hmine q.1 q.2).mp hqm2
    simpa using this
  have hp_nb : p ∈ neighbors b.rows b.cols q.1 q.2 := mem_neighbors_symm hv hq
  have hp_mineloop : ((mineLoop b.grid sample) p.1 p.2).has_mine = false := by
    have h1 : ((place_mines_with b sample).grid p.1 p.2).has_mine = false := hm
    simpa [place_mines_with, adjLoop_has_mine] using h1
  have hhit := adjLoop_hit b.rows b.cols sample (mineLoop b.grid sample) q p
    hq_sample hp_nb hp_mineloop
  have hadj : ((place_mines_with b sample).grid p.1 p.2).adjacent_mines =
      ((adjLoop b.rows b.cols (mineLoop b.grid sample) sample) p.1 p.2).adjacent_mines := by
    simp [place_mines_with]
  rw [hadj] at h0
  omega

theorem gridInv_congr {rows cols : Nat} {g g2 : Int → Int → Cell}
    (hmine : ∀ r c, (g2 r c).has_mine = (g r c).has_mine)
    (hadj : ∀ r c, (g2 r c).adjacent_mines = (g r c).adjacent_mines)
    (h : gridInv rows cols g) : gridInv rows cols g2 := by
  intro p q hv hm h0 hq
  rw [hmine p.1 p.2] at hm
  rw [hadj p.1 p.2] at h0
  rw [hmine q.1 q.2]
  exact h p q hv hm h0 hq

theorem flood_nil (rows cols fuel : Nat) (b : Board) (visited : List Coord) :
    flood rows cols fuel b [] visited = (b, visited) := by
  cases fuel <;> simp [flood]

theorem flood_cons_mem (rows cols fuel : Nat) (b : Board) (n : Coord)
    (rest visited : List Coord) (h1 : n ∈ visited) :
    flood rows cols (fuel + 1) b (n :: rest) visited =
      flood rows cols fuel b rest visited := by
  simp only [flood]
  rw [if_pos h1]

theorem flood_cons_not_hidden (rows cols fuel : Nat) (b : Board) (n : Coord)
    (rest visited : List Coord) (h1 : n ∉ visited)
    (h2 : (b.grid n.1 n.2).state ≠ CellState.HIDDEN) :
    flood rows cols (fuel + 1) b (n :: rest) visited =
      flood rows cols fuel b rest visited := by
  simp only [flood]
  rw [if_neg h1, if_pos h2]

theorem flood_cons_hidden (rows cols fuel : Nat) (b : Board) (n : Coord)
    (rest visited : List Coord) (h1 : n ∉ visited)
    (h2 : (b.grid n.1 n.2).state = CellState.HIDDEN) :
    flood rows cols (fuel + 1) b (n :: rest) visited =
      (let b' := { b with
          safe_left := b.safe_left - 1,
          grid := updateCell b.grid n.1 n.2 (fun c => { c with state := CellState.REVEALED }) }
       let stepped :=
         if (b.grid n.1 n.2).adjacent_mines = 0 ∧ (b.grid n.1 n.2).has_mine = false then
           flood rows cols fuel b' (neighbors rows cols n.1 n.2) (visited ++ [n])
         else (b', visited ++ [n])
       flood rows cols fuel stepped.1 rest stepped.2) := by
  simp only [flood]
  rw [if_neg h1]
  have h2x : ¬((b.grid n.1 n.2).state ≠ CellState.HIDDEN) := by simp [h2]
  rw [if_neg h2x]

theorem flood_preserves (rows cols : Nat) :
    ∀ (fuel : Nat) (b : Board) (ns visited : List Coord),
      (flood rows cols fuel b ns visited).1.lost = b.lost ∧
      (∀ r c, ((flood rows cols fuel b ns visited).1.grid r c).has_mine =
        (b.grid r c).has_mine) ∧
      (∀ r c, ((flood rows cols fuel b ns visited).1.grid r c).adjacent_mines =
        (b.grid r c).adjacent_mines) := by
  intro fuel
  induction fuel with
  | zero =>
    intro b ns visited
    exact ⟨rfl, fun r c => rfl, fun r c => rfl⟩
  | succ fuel ih =>
    intro b ns visited
    cases ns with
    | nil =>
      rw [flood_nil]
      exact ⟨rfl, fun r c => rfl, fun r c => rfl⟩
    | cons n rest =>
      by_cases h1 : n ∈ visited
      · rw [flood_cons_mem rows cols fuel b n rest visited h1]
        exact ih b rest visited
      · by_cases h2 : (b.grid n.1 n.2).state = CellState.HIDDEN
        · rw [flood_cons_hidden rows cols fuel b n rest visited h1 h2]
          simp only []
          by_cases h3 : (b.grid n.1 n.2).adjacent_mines = 0 ∧ (b.grid n.1 n.2).has_mine = false
          · rw [if_pos h3]
            obtain ⟨pl1, pm1, pa1⟩ := ih
              { b with
                safe_left := b.safe_left - 1,
                grid := updateCell b.grid n.1 n.2 (fun c => { c with state := CellState.REVEALED }) }
              (neighbors rows cols n.1 n.2) (visited ++ [n])
            obtain ⟨pl2, pm2, pa2⟩ := ih
              (flood rows cols fuel
                { b with
                  safe_left := b.safe_left - 1,
                  grid := updateCell b.grid n.1 n.2 (fun c => { c with state := CellState.REVEALED }) }
                (neighbors rows cols n.1 n.2) (visited ++ [n])).1 rest
              (flood rows cols fuel
                { b with
                  safe_left := b.safe_left - 1,
                  grid := updateCell b.grid n.1 n.2 (fun c => { c with state := CellState.REVEALED }) }
                (neighbors rows cols n.1 n.2) (visited ++ [n])).2
            refine ⟨?_, fun r c => ?_, fun r c => ?_⟩
            · rw [pl2, pl1]
            · rw [pm2, pm1, setState_has_mine]
            · rw [pa2, pa1, setState_adj]
          · rw [if_neg h3]
            obtain ⟨pl2, pm2, pa2⟩ := ih
              { b with
                safe_left := b.safe_left - 1,
                grid := updateCell b.grid n.1 n.2 (fun c => { c with state := CellState.REVEALED }) }
              rest (visited ++ [n])
            refine ⟨?_, fun r c => ?_, fun r c => ?_⟩
            · rw [pl2]
            · rw [pm2, setState_has_mine]
            · rw [pa2, setState_adj]
        · rw [flood_cons_not_hidden rows cols fuel b n rest visited h1 h2]
          exact ih b rest visited

theorem flood_no_mine (rows cols : Nat) :
    ∀ (fuel : Nat) (b : Board) (ns visited : List Coord),
      gridInv rows cols b.grid →
      (∀ p ∈ ns, (b.grid p.1 p.2).has_mine = false) →
      (∀ p ∈ ns, validate_coord rows cols p.1 p.2 = true) →
      (∀ p ∈ visited, (b.grid p.1 p.2).has_mine = false) →
      ∀ p ∈ (flood rows cols fuel b ns visited).2, (b.grid p.1 p.2).has_mine = false := by
  intro fuel
  induction fuel with
  | zero =>
    intro b ns visited _ _ _ hvis
    exact hvis
  | succ fuel ih =>
    intro b ns visited hInv hns hnsv hvis
    cases ns with
    | nil =>
      rw [flood_nil]
      exact hvis
    | cons n rest =>
      have hns_rest : ∀ p ∈ rest, (b.grid p.1 p.2).has_mine = false :=
        fun p hp => hns p (List.mem_cons_of_mem _ hp)
      have hnsv_rest : ∀ p ∈ rest, validate_coord rows cols p.1 p.2 = true :=
        fun p hp => hnsv p (List.mem_cons_of_mem _ hp)
      have hn_mine : (b.grid n.1 n.2).has_mine = false := hns n (List.mem_cons_self n rest)
      have hn_val : validate_coord rows cols n.1 n.2 = true := hnsv n (List.mem_cons_self n rest)
      by_cases h1 : n ∈ visited
      · rw [flood_cons_mem rows cols fuel b n rest visited h1]
        exact ih b rest visited hInv hns_rest hnsv_rest hvis
      · by_cases h2 : (b.grid n.1 n.2).state = CellState.HIDDEN
        · rw [flood_cons_hidden rows cols fuel b n rest visited h1 h2]
          simp only []
          have hb'_mine : ∀ r c,
              ((updateCell b.grid n.1 n.2
                (fun c0 => { c0 with state := CellState.REVEALED })) r c).has_mine =
              (b.grid r c).has_mine := fun r c => setState_has_mine b.grid n.1 n.2 _ r c
          have hb'_adj : ∀ r c,
              ((updateCell b.grid n.1 n.2
                (fun c0 => { c0 with state := CellState.REVEALED })) r c).adjacent_mines =
              (b.grid r c).adjacent_mines := fun r c => setState_adj b.grid n.1 n.2 _ r c
          have hInv' : gridInv rows cols (updateCell b.grid n.1 n.2
              (fun c0 => { c0 with state := CellState.REVEALED })) :=
            gridInv_congr hb'_mine hb'_adj hInv
          have hvis' : ∀ p ∈ visited ++ [n],
              ((updateCell b.grid n.1 n.2
                (fun c0 => { c0 with state := CellState.REVEALED })) p.1 p.2).has_mine = false := by
            intro p hp
            rw [hb'_mine]
            rcases List.mem_append.mp hp with hp | hp
            · exact hvis p hp
            · rw [List.mem_singleton.mp hp]
              exact hn_mine
          by_cases h3 : (b.grid n.1 n.2).adjacent_mines = 0 ∧ (b.grid n.1 n.2).has_mine = false
          · rw [if_pos h3]
            have hnbrs_mine : ∀ p ∈ neighbors rows cols n.1 n.2,
                ((updateCell b.grid n.1 n.2
                  (fun c0 => { c0 with state := CellState.REVEALED })) p.1 p.2).has_mine = false := by
              intro p hp
              rw [hb'_mine]
              exact hInv n p hn_val h3.2 h3.1 hp
            have hnbrs_val : ∀ p ∈ neighbors rows cols n.1 n.2,
                validate_coord rows cols p.1 p.2 = true :=
              fun p hp => validate_of_mem_neighbors hp
            have h_inner := ih
              { b with
                safe_left := b.safe_left - 1,
                grid := updateCell b.grid n.1 n.2 (fun c0 => { c0 with state := CellState.REVEALED }) }
              (neighbors rows cols n.1 n.2) (visited ++ [n]) hInv' hnbrs_mine hnbrs_val hvis'
            obtain ⟨_, pm1, pa1⟩ := flood_preserves rows cols fuel
              { b with
                safe_left := b.safe_left - 1,
                grid := updateCell b.grid n.1 n.2 (fun c0 => { c0 with state := CellState.REVEALED }) }
              (neighbors rows cols n.1 n.2) (visited ++ [n])
            have hInvF : gridInv rows cols (flood rows cols fuel
                { b with
                  safe_left := b.safe_left - 1,
                  grid := updateCell b.grid n.1 n.2 (fun c0 => { c0 with state := CellState.REVEALED }) }
                (neighbors rows cols n.1 n.2) (visited ++ [n])).1.grid :=
              gridInv_congr pm1 pa1 hInv'
            have h_final := ih
              (flood rows cols fuel
                { b with
                  safe_left := b.safe_left - 1,
                  grid := updateCell b.grid n.1 n.2 (fun c0 => { c0 with state := CellState.REVEALED }) }
                (neighbors rows cols n.1 n.2) (visited ++ [n])).1 rest
              (flood rows cols fuel
                { b with
                  safe_left := b.safe_left - 1,
                  grid := updateCell b.grid n.1 n.2 (fun c0 => { c0 with state := CellState.REVEALED }) }
                (neighbors rows cols n.1 n.2) (visited ++ [n])).2 hInvF
              (fun p hp => by rw [pm1, hb'_mine]; exact hns_rest p hp) hnsv_rest
              (fun p hp => by rw [pm1]; exact h_inner p hp)
            intro p hp
            have := h_final p hp
            rw [pm1, hb'_mine] at this
            exact this
          · rw [if_neg h3]
            have h_final := ih
              { b with
                safe_left := b.safe_left - 1,
                grid := updateCell b.grid n.1 n.2 (fun c0 => { c0 with state := CellState.REVEALED }) }
              rest (visited ++ [n]) hInv'
              (fun p hp => by rw [hb'_mine]; exact hns_rest p hp) hnsv_rest hvis'
            intro p hp
            have := h_final p hp
            rw [hb'_mine] at this
            exact this
        · rw [flood_cons_not_hidden rows cols fuel b n rest visited h1 h2]
          exact ih b rest visited hInv hns_rest hnsv_rest hvis

theorem drain_stale_eq_nil (q : List OracleEntry) : drain_stale q = [] := by
  induction q with
  | nil => rfl
  | cons e rest ih => simpa [drain_stale] using ih

theorem take_one_eq_nil {α : Type} (l : List α) : l.take 1 = [] ↔ l = [] := by
  cases l <;> simp

theorem filterMap_flag_part (M R : List Coord) :
    (M.map (fun p => (p, 'f')) ++ R.map (fun p => (p, 'r'))).filterMap
      (fun m : Coord × Char => if m.2 = 'f' then some m.1 else none) = M := by
  simp [List.filterMap_append, List.filterMap_map, Function.comp_def]

theorem filterMap_reveal_part (M R : List Coord) :
    (M.map (fun p => (p, 'f')) ++ R.map (fun p => (p, 'r'))).filterMap
      (fun m : Coord × Char => if m.2 = 'r' then some m.1 else none) = R := by
  simp [List.filterMap_append, List.filterMap_map, Function.comp_def]

theorem deduce_components (cs : List Constraint) (M R : List Coord)
    (hd : deduce cs = M.map (fun p => (p, 'f')) ++ R.map (fun p => (p, 'r'))) :
    deduceMines cs = M ∧ deduceSafes cs = R := by
  refine ⟨?_, ?_⟩
  · rw [deduceMines, hd, filterMap_flag_part]
  · rw [deduceSafes, hd, filterMap_reveal_part]

theorem mem_deduce_flag (cs : List Constraint) (p : Coord) (h : p ∈ deduceMines cs) :
    (p, 'f') ∈ deduce cs := by
  obtain ⟨m, hm, hf⟩ := List.mem_filterMap.mp h
  obtain ⟨m1, m2⟩ := m
  by_cases h2 : m2 = 'f'
  · subst h2
    simp only [if_true, reduceIte, Option.some_inj] at hf
    subst hf
    exact hm
  · simp [h2] at hf

theorem mem_deduce_reveal (cs : List Constraint) (p : Coord) (h : p ∈ deduceSafes cs) :
    (p, 'r') ∈ deduce cs := by
  obtain ⟨m, hm, hf⟩ := List.mem_filterMap.mp h
  obtain ⟨m1, m2⟩ := m
  by_cases h2 : m2 = 'r'
  · subst h2
    simp only [if_true, reduceIte, Option.some_inj] at hf
    subst hf
    exact hm
  · simp [h2] at hf

theorem deduce_tier1_shape (cs : List Constraint)
    (ht : ¬(single_sure_mine cs = [] ∧ single_can_reveal cs = [])) :
    deduce cs = (single_sure_mine cs).dedup.map (fun p => (p, 'f')) ++
      (single_can_reveal cs).dedup.map (fun p => (p, 'r')) := by
  simp only [deduce, if_neg ht]

theorem dedup_toFinset {α : Type} [DecidableEq α] (l : List α) :
    l.dedup.toFinset = l.toFinset :=
  List.toFinset.ext (by simp)

theorem perm_nil_iff {α : Type} {l l2 : List α} (p : l.Perm l2) : l = [] ↔ l2 = [] := by
  constructor
  · intro h; subst h; exact p.symm.eq_nil
  · intro h; subst h; exact p.eq_nil

theorem length_dedup_le {α : Type} [DecidableEq α] (l : List α) :
    l.dedup.length ≤ l.length :=
  (List.dedup_sublist l).length_le

theorem deduce_tiers23_short (cs : List Constraint)
    (ht : single_sure_mine cs = [] ∧ single_can_reveal cs = []) :
    (deduceMines cs).length ≤ 1 ∧ (deduceSafes cs).length ≤ 1 := by
  have hd : deduce cs =
      (if (subset_mine cs).take 1 = [] ∧ (subset_safe cs).take 1 = []
        then (diff_mine cs).take 1 else (subset_mine cs).take 1).dedup.map (fun p => (p, 'f')) ++
      (if (subset_mine cs).take 1 = [] ∧ (subset_safe cs).take 1 = []
        then (diff_safe cs).take 1 else (subset_safe cs).take 1).dedup.map (fun p => (p, 'r')) := by
    simp only [deduce, if_pos ht]
  obtain ⟨hm, hs⟩ := deduce_components cs _ _ hd
  rw [hm, hs]
  constructor <;>
    · refine le_trans (length_dedup_le _) ?_
      split <;> exact le_trans (List.length_take_le _ _) le_rfl

/-! Claim theorems. -/

/-- Claim C1: choose_action with a non-empty queue pops and returns the front
move, touching neither the fact store nor the buffer — but on an empty queue
the source calls self._engine.feed_revealed_cells, an attribute PrologEngine
does not define (engine.py defines feed_revealed_cell), so the fold the
claim describes never happens: the call raises AttributeError.  This theorem
evaluates both branches at concrete inputs. -/
theorem claim1_choose_action_empty_queue_attribute_error :
    choose_action ⟨[], [(0, 0, 1)], []⟩ = Except.error attribute_error_msg ∧
    choose_action ⟨[⟨MoveType.FLAG, 0, 0⟩], [(0, 0, 1)], [PrologFact.revealed 2 2 1]⟩ =
      Except.ok (⟨MoveType.FLAG, 0, 0⟩, ⟨[], [(0, 0, 1)], [PrologFact.revealed 2 2 1]⟩) :=
  ⟨rfl, rfl⟩

/-- Claim C4 counterexample: feeding the identical revealed fact (0,0,1)
twice does not leave the store identical to feeding it once — assertz
appends a duplicate clause, so intake is not idempotent. -/
theorem claim4_cx_feed_twice_not_idempotent :
    PrologEngine.feed_revealed_cell (PrologEngine.feed_revealed_cell [] 0 0 1) 0 0 1 ≠
      PrologEngine.feed_revealed_cell [] 0 0 1 := by
  decide

/-- Claim C4 amended: feed_revealed_cell asserts unconditionally — a second
identical call appends a duplicate clause, and a second call with a
differing count asserts the conflicting fact alongside the old one; neither
case is detected or fatal. -/
theorem claim4_feed_appends_unconditionally (db : List PrologFact) (row col v w : Int) :
    PrologEngine.feed_revealed_cell (PrologEngine.feed_revealed_cell db row col v) row col v =
      db ++ [PrologFact.revealed row col v, PrologFact.revealed row col v] ∧
    PrologEngine.feed_revealed_cell (PrologEngine.feed_revealed_cell db row col v) row col w =
      db ++ [PrologFact.revealed row col v, PrologFact.revealed row col w] := by
  simp [PrologEngine.feed_revealed_cell]

/-- Claim C6 counterexample: with the two oracle entries (REVEAL,0,0) and
(REVEAL,1,1) enqueued before the episode, the drain loop discards both, the
episode blocks, and the move actually consumed is a fresh third entry
(FLAG,2,2) — not the second pre-enqueued entry as the claim states. -/
theorem claim6_cx_both_stale_entries_discarded :
    handle_by_human_agent
        [(MoveType.REVEAL, 0, 0), (MoveType.REVEAL, 1, 1)] [(MoveType.FLAG, 2, 2)] =
      some ([Event.NEED_GUESS, Event.GUESS_DONE], ⟨MoveType.FLAG, 2, 2⟩, [], []) ∧
    (⟨MoveType.FLAG, 2, 2⟩ : Move) ≠ ⟨MoveType.REVEAL, 1, 1⟩ := by
  exact ⟨rfl, by decide⟩

/-- Claim C6 amended: with exactly two entries enqueued before the first
AWAITING_ORACLE episode, the episode drains and discards both of them and
blocks until a fresh entry arrives, consuming that fresh entry. -/
theorem claim6_two_stale_entries_both_discarded
    (e1 e2 : OracleEntry) (mt : MoveType) (row col : Int) (rest : List OracleEntry) :
    handle_by_human_agent [e1, e2] ((mt, row, col) :: rest) =
      some ([Event.NEED_GUESS, Event.GUESS_DONE], ⟨mt, row, col⟩, [], rest) :=
  rfl

/-- Claim C7: in an AWAITING_ORACLE episode every entry already in the oracle
queue is drained and discarded before blocking, exactly one decision — the
first entry to arrive after the request — is consumed (the remaining arrivals
are left untouched), and the decision-accepted notification GUESS_DONE is
published after consuming it. -/
theorem claim7_oracle_episode_consumes_one_fresh_decision
    (q : List OracleEntry) (mt : MoveType) (row col : Int) (rest : List OracleEntry) :
    handle_by_human_agent q ((mt, row, col) :: rest) =
      some ([Event.NEED_GUESS, Event.GUESS_DONE], ⟨mt, row, col⟩, [], rest) := by
  simp [handle_by_human_agent, drain_stale_eq_nil]

/-- Claim C3 counterexample: on the desynchronized constraint set cs_both the
coordinate (1,1) is proven both mine and safe in one pass, and deduce returns
normally — it is a total function with no abort path — emitting both a flag
and a reveal move for (1,1): exactly the silent resolution the claim says
never happens. -/
theorem claim3_cx_contradiction_not_fatal :
    deduce cs_both = [((1, 1), 'f'), ((1, 1), 'r')] ∧
    (1, 1) ∈ deduceMines cs_both ∧ (1, 1) ∈ deduceSafes cs_both := by
  refine ⟨by decide, by decide, by decide⟩

/-- Claim C3 amended: deduce performs no disjointness check between its mine
and safe conclusions; whenever a coordinate is concluded both mine and safe
in one pass, the returned move list silently contains both a flag move and a
reveal move for that coordinate, with no fatal abort. -/
theorem claim3_contradiction_emits_both_moves (cs : List Constraint) (p : Coord)
    (hm : p ∈ deduceMines cs) (hs : p ∈ deduceSafes cs) :
    (p, 'f') ∈ deduce cs ∧ (p, 'r') ∈ deduce cs :=
  ⟨mem_deduce_flag cs p hm, mem_deduce_reveal cs p hs⟩

/-- Witness for the amended Claim C3 at the concrete constraint set cs_both. -/
theorem claim3_witness :
    (1, 1) ∈ deduceMines cs_both ∧ (1, 1) ∈ deduceSafes cs_both ∧
    ((1, 1), 'f') ∈ deduce cs_both ∧ ((1, 1), 'r') ∈ deduce cs_both := by
  have h := claim3_contradiction_emits_both_moves cs_both (1, 1) (by decide) (by decide)
  exact ⟨by decide, by decide, h.1, h.2⟩

/-- Claim C5: escalation discipline of deduce — the Tier 2 queries are issued
exactly when Tier 1 proved neither a mine nor a safe cell, the Tier 3 queries
exactly when Tier 1 and Tier 2 both proved nothing, and the instrumented
control flow returns the same moves as deduce. -/
theorem claim5_escalation_discipline (cs : List Constraint) :
    ((deduceTrace cs).2.1 = true ↔
      (single_sure_mine cs = [] ∧ single_can_reveal cs = [])) ∧
    ((deduceTrace cs).2.2 = true ↔
      (single_sure_mine cs = [] ∧ single_can_reveal cs = [] ∧
        subset_mine cs = [] ∧ subset_safe cs = [])) ∧
    (deduceTrace cs).1 = deduce cs := by
  refine ⟨?_, ?_, rfl⟩
  · simp [deduceTrace]
  · by_cases ht : single_sure_mine cs = [] ∧ single_can_reveal cs = []
    · simp [deduceTrace, ht, take_one_eq_nil]
    · simp only [deduceTrace, if_neg ht, decide_eq_true_eq]
      constructor
      · intro hc
        exact absurd ⟨hc.1, hc.2⟩ ht
      · intro hc
        exact absurd ⟨hc.1, hc.2.1⟩ ht

/-- Claim C2 counterexample: on cs_ord1, Tier 1 proves nothing and the Tier 2
subset_safe query individually proves both (5,2) and (6,2); yet deduce
returns only the first solution ((6,2) is dropped), and on the permuted
input cs_ord2 the returned safe set is {(6,2)} instead of {(5,2)} — the
result is not the tier's union and depends on the constraint order. -/
theorem claim2_cx_tier23_first_solution_only_and_order_dependent :
    cs_ord2.Perm cs_ord1 ∧
    (6, 2) ∈ subset_safe cs_ord1 ∧ (6, 2) ∉ deduceSafes cs_ord1 ∧
    (5, 2) ∈ deduceSafes cs_ord1 ∧ (5, 2) ∉ deduceSafes cs_ord2 := by
  exact ⟨List.perm_append_comm, by decide, by decide, by decide, by decide⟩

/-- Claim C2 amended: when Tier 1 fires, deduce does return the union of
everything Tier 1 individually proves (as a set) and the result is
independent of the constraint order; but when Tier 2 or Tier 3 fires, the
engine takes only the first solution of each query (maxresult=1), so at most
one mine and one safe cell are returned and the result can depend on the
order in which the constraints were supplied. -/
theorem claim2_tier1_union_tiers23_single_solution
    (cs cs2 : List Constraint) (h : cs.Perm cs2) :
    (¬(single_sure_mine cs = [] ∧ single_can_reveal cs = []) →
      (deduceMines cs).toFinset = (single_sure_mine cs).toFinset ∧
      (deduceSafes cs).toFinset = (single_can_reveal cs).toFinset ∧
      (deduceMines cs).toFinset = (deduceMines cs2).toFinset ∧
      (deduceSafes cs).toFinset = (deduceSafes cs2).toFinset) ∧
    ((single_sure_mine cs = [] ∧ single_can_reveal cs = []) →
      (deduceMines cs).length ≤ 1 ∧ (deduceSafes cs).length ≤ 1) := by
  have hpm : (single_sure_mine cs).Perm (single_sure_mine cs2) := h.flatMap_right _
  have hpr : (single_can_reveal cs).Perm (single_can_reveal cs2) := h.flatMap_right _
  refine ⟨fun ht => ?_, deduce_tiers23_short cs⟩
  have ht2 : ¬(single_sure_mine cs2 = [] ∧ single_can_reveal cs2 = []) := by
    intro hc
    exact ht ⟨(perm_nil_iff hpm).mpr hc.1, (perm_nil_iff hpr).mpr hc.2⟩
  obtain ⟨hm1, hs1⟩ := deduce_components cs _ _ (deduce_tier1_shape cs ht)
  obtain ⟨hm2, hs2⟩ := deduce_components cs2 _ _ (deduce_tier1_shape cs2 ht2)
  rw [hm1, hs1, hm2, hs2, dedup_toFinset, dedup_toFinset, dedup_toFinset, dedup_toFinset]
  exact ⟨rfl, rfl, List.toFinset_eq_of_perm _ _ hpm, List.toFinset_eq_of_perm _ _ hpr⟩

/-- Witness for the amended Claim C2: the permutation hypothesis holds for
the concrete reordering cs_ord1, cs_ord2, Tier 1 proves nothing there, and
the Tier 2 pass returns at most one mine and one safe conclusion. -/
theorem claim2_witness :
    cs_ord1.Perm cs_ord2 ∧
    (deduceMines cs_ord1).length ≤ 1 ∧ (deduceSafes cs_ord1).length ≤ 1 := by
  have h := claim2_tier1_union_tiers23_single_solution cs_ord1 cs_ord2 List.perm_append_comm
  exact ⟨List.perm_append_comm, (h.2 (by decide)).1, (h.2 (by decide)).2⟩

set_option linter.unusedTactic false in
/-- GameController.step returns normally on every input: the only exception
raised along its paths (the ValueError of Board.flag) is caught by the
except-pass handler. -/
theorem step_isOk (state : GameState) (b : Board) (mines_sample : List Coord) (move : Move) :
    ∃ r, step state b mines_sample move = Except.ok r := by
  unfold step
  split
  · exact ⟨_, rfl⟩
  · split
    · exact ⟨_, rfl⟩
    · split <;>
        ((try dsimp only)
         split
         · exact ⟨_, rfl⟩
         · (try dsimp only)
           split
           · exact ⟨_, rfl⟩
           · exact ⟨_, rfl⟩)

/-- Claim C8 counterexample: on the concrete board board8, an oracle decision
revealing the already-revealed cell (0,0) yields an empty change list and a
normal RUNNING step, flagging it raises ValueError which step catches and
discards, and revealing the out-of-bounds (5,7) is a silent no-op — the run
is never aborted, contrary to the claimed fatal usage error. -/
theorem claim8_cx_invalid_decision_not_fatal :
    step GameState.RUNNING board8 [] ⟨MoveType.REVEAL, 0, 0⟩ =
      Except.ok (GameState.RUNNING, board8) ∧
    step GameState.RUNNING board8 [] ⟨MoveType.FLAG, 0, 0⟩ =
      Except.ok (GameState.RUNNING, board8) ∧
    step GameState.RUNNING board8 [] ⟨MoveType.REVEAL, 5, 7⟩ =
      Except.ok (GameState.RUNNING, board8) ∧
    (reveal board8 [] 0 0).1 = [] ∧
    flag board8 0 0 = Except.error flag_error_msg :=
  ⟨rfl, rfl, rfl, rfl, rfl⟩

/-- Claim C8 amended: an oracle decision targeting an already-revealed or
out-of-bounds coordinate is silently ignored rather than fatal — reveal
returns an empty change list leaving the board unchanged, the ValueError of
flagging a revealed cell is raised but caught and discarded by the
controller, and step completes normally. -/
theorem claim8_invalid_decision_silently_ignored (b : Board) (mines_sample : List Coord)
    (row col : Int) (t : MoveType)
    (hplaced : b.mines_placed = true)
    (hinv : (b.grid row col).state = CellState.REVEALED ∨
      validate_coord b.rows b.cols row col = false) :
    reveal b mines_sample row col = ([], b) ∧
    ((b.grid row col).state = CellState.REVEALED →
      validate_coord b.rows b.cols row col = true →
      flag b row col = Except.error flag_error_msg) ∧
    ∃ r, step GameState.RUNNING b mines_sample ⟨t, row, col⟩ = Except.ok r := by
  refine ⟨?_, ?_, step_isOk _ _ _ _⟩
  · by_cases hv : validate_coord b.rows b.cols row col = false
    · simp [reveal, hv]
    · rcases hinv with hR | hR
      · simp [reveal, hv, hplaced, hR]
      · exact absurd hR hv
  · intro hR hv
    simp [flag, hv, hR]

/-- Witness for the amended Claim C8 at the concrete board board8, whose cell
(0,0) is already revealed. -/
theorem claim8_witness :
    reveal board8 [] 0 0 = ([], board8) ∧
    flag board8 0 0 = Except.error flag_error_msg ∧
    ∃ r, step GameState.RUNNING board8 [] ⟨MoveType.FLAG, 0, 0⟩ = Except.ok r := by
  have h := claim8_invalid_decision_silently_ignored board8 [] 0 0 MoveType.FLAG rfl (Or.inl rfl)
  exact ⟨h.1, h.2.1 rfl rfl, h.2.2⟩

/-- Claim C9: the BoardView observations leak no mine information about
non-revealed cells — for any two underlying grids that agree on every cell's
state and on the data of revealed cells but may differ arbitrarily in mine
placement on non-revealed cells, every observation (state, indexing, number,
iteration) is identical. -/
theorem claim9_view_no_mine_leak (v1 v2 : BoardView)
    (hrows : v1.rows = v2.rows) (hcols : v1.cols = v2.cols)
    (hstate : ∀ r c, (v1.grid r c).state = (v2.grid r c).state)
    (hrev : ∀ r c, (v1.grid r c).state = CellState.REVEALED →
      (v1.grid r c).adjacent_mines = (v2.grid r c).adjacent_mines ∧
      (v1.grid r c).has_mine = (v2.grid r c).has_mine) :
    (∀ r c, v1.state r c = v2.state r c) ∧
    (∀ rc : Coord, v1.getElem rc = v2.getElem rc) ∧
    (∀ r c, v1.number r c = v2.number r c) ∧
    v1.iterList = v2.iterList := by
  have hg : ∀ rc : Coord, v1.getElem rc = v2.getElem rc := by
    intro rc
    obtain ⟨r, c⟩ := rc
    dsimp [BoardView.getElem]
    by_cases hR : (v1.grid r c).state = CellState.REVEALED
    · have h2 : (v2.grid r c).state = CellState.REVEALED := (hstate r c).symm.trans hR
      simp [hR, h2, (hrev r c hR).1]
    · have h2 : ¬(v2.grid r c).state = CellState.REVEALED := by
        rw [← hstate r c]; exact hR
      simp [hR, h2, hstate r c]
  have hn : ∀ r c, v1.number r c = v2.number r c := by
    intro r c
    dsimp [BoardView.number]
    by_cases hR : (v1.grid r c).state = CellState.REVEALED
    · obtain ⟨ha, hm⟩ := hrev r c hR
      have h2 : (v2.grid r c).state = CellState.REVEALED := (hstate r c).symm.trans hR
      simp [hR, h2, ha, hm]
    · have h2 : ¬(v2.grid r c).state = CellState.REVEALED := by
        rw [← hstate r c]; exact hR
      simp [hR, h2]
  have hfun : BoardView.getElem v1 = BoardView.getElem v2 := funext hg
  refine ⟨fun r c => hstate r c, hg, hn, ?_⟩
  unfold BoardView.iterList
  rw [hrows, hcols, hfun]

/-- Witness for Claim C9: the concrete views wit_view1, wit_view2 differ in
the mine hidden at (0,1) yet produce identical observations. -/
theorem claim9_witness :
    wit_view1.getElem (0, 1) = wit_view2.getElem (0, 1) ∧
    wit_view1.iterList = wit_view2.iterList ∧
    wit_grid1 0 1 ≠ wit_grid2 0 1 := by
  have hrev : ∀ r c : Int, (wit_view1.grid r c).state = CellState.REVEALED →
      (wit_view1.grid r c).adjacent_mines = (wit_view2.grid r c).adjacent_mines ∧
      (wit_view1.grid r c).has_mine = (wit_view2.grid r c).has_mine := by
    intro r c hR
    refine ⟨rfl, ?_⟩
    have hc : r = 0 ∧ c = 0 := by
      by_cases hcon : r = 0 ∧ c = 0
      · exact hcon
      · exfalso
        simp [wit_view1, wit_grid1, wit_state, hcon] at hR
    obtain ⟨h0, h1⟩ := hc
    subst h0
    subst h1
    decide
  have h := claim9_view_no_mine_leak wit_view1 wit_view2 rfl rfl (fun r c => rfl) hrev
  exact ⟨h.2.1 (0, 1), h.2.2.2, by decide⟩

/-- Claim C10: under first-click safety the board before the first reveal has
no mines placed; the first reveal places the sampled mines, which the source
draws from the coordinate list with the clicked cell and all its neighbors
removed — so for every coordinate the first reveal call leaves the clicked
cell and its neighbors mine-free, reveals no mine, and never sets the lost
flag. -/
theorem claim10_first_reveal_never_mine (b : Board) (mines_sample : List Coord) (row col : Int)
    (hplaced : b.mines_placed = false)
    (hmine : ∀ r c, (b.grid r c).has_mine = false)
    (hlost : b.lost = false)
    (hsample : ∀ p ∈ mines_sample, p ∈ allowed_mine_coords b.rows b.cols (row, col)) :
    (reveal b mines_sample row col).2.lost = false ∧
    (∀ p ∈ (reveal b mines_sample row col).1,
      ((reveal b mines_sample row col).2.grid p.1 p.2).has_mine = false) ∧
    ((reveal b mines_sample row col).2.grid row col).has_mine = false ∧
    (∀ q ∈ neighbors b.rows b.cols row col,
      ((reveal b mines_sample row col).2.grid q.1 q.2).has_mine = false) := by
  have hs1 : (row, col) ∉ mines_sample := by
    intro hc
    exact (mem_allowed (hsample _ hc)).1 rfl
  have hs2 : ∀ q ∈ neighbors b.rows b.cols row col, q ∉ mines_sample := by
    intro q hq hc
    exact (mem_allowed (hsample _ hc)).2 hq
  by_cases hv : validate_coord b.rows b.cols row col = false
  · have hrev : reveal b mines_sample row col = ([], b) := by
      unfold reveal
      rw [if_pos hv]
    rw [hrev]
    exact ⟨hlost, by simp, hmine row col, fun q _ => hmine q.1 q.2⟩
  · have pm_iff := fun r c => place_has_mine_iff b mines_sample hmine r c
    have pclick : ((place_mines_with b mines_sample).grid row col).has_mine = false := by
      cases hval : ((place_mines_with b mines_sample).grid row col).has_mine
      · rfl
      · exact absurd ((pm_iff row col).mp hval) hs1
    have pnbr : ∀ q ∈ neighbors b.rows b.cols row col,
        ((place_mines_with b mines_sample).grid q.1 q.2).has_mine = false := by
      intro q hq
      cases hval : ((place_mines_with b mines_sample).grid q.1 q.2).has_mine
      · rfl
      · have hmem : (q.1, q.2) ∈ mines_sample := (pm_iff q.1 q.2).mp hval
        exact absurd hmem (hs2 q hq)
    have pInv : gridInv b.rows b.cols (place_mines_with b mines_sample).grid :=
      place_gridInv b mines_sample hmine
    by_cases hfr : ((place_mines_with b mines_sample).grid row col).state = CellState.FLAGGED ∨
        ((place_mines_with b mines_sample).grid row col).state = CellState.REVEALED
    · have hrev : reveal b mines_sample row col =
          ([], { place_mines_with b mines_sample with mines_placed := true }) := by
        unfold reveal
        rw [if_neg hv, if_pos hplaced]
        simp only []
        rw [if_pos hfr]
      rw [hrev]
      exact ⟨hlost, by simp, pclick, fun q hq => pnbr q hq⟩
    · have hnm : ¬(((place_mines_with b mines_sample).grid row col).has_mine = true) := by
        rw [pclick]
        simp
      have hb2_mine : ∀ r c,
          ((updateCell (place_mines_with b mines_sample).grid row col
            (fun c0 => { c0 with state := CellState.REVEALED })) r c).has_mine =
          ((place_mines_with b mines_sample).grid r c).has_mine :=
        fun r c => setState_has_mine _ row col _ r c
      have hb2_adj : ∀ r c,
          ((updateCell (place_mines_with b mines_sample).grid row col
            (fun c0 => { c0 with state := CellState.REVEALED })) r c).adjacent_mines =
          ((place_mines_with b mines_sample).grid r c).adjacent_mines :=
        fun r c => setState_adj _ row col _ r c
      by_cases hz : ((place_mines_with b mines_sample).grid row col).adjacent_mines = 0
      · have hrev : reveal b mines_sample row col =
            ((flood b.rows b.cols (9 * (b.rows * b.cols + 1))
              { place_mines_with b mines_sample with
                mines_placed := true,
                grid := updateCell (place_mines_with b mines_sample).grid row col
                  (fun c0 => { c0 with state := CellState.REVEALED }),
                safe_left := (place_mines_with b mines_sample).safe_left - 1 }
              (neighbors b.rows b.cols row col) [(row, col)]).2,
             (flood b.rows b.cols (9 * (b.rows * b.cols + 1))
              { place_mines_with b mines_sample with
                mines_placed := true,
                grid := updateCell (place_mines_with b mines_sample).grid row col
                  (fun c0 => { c0 with state := CellState.REVEALED }),
                safe_left := (place_mines_with b mines_sample).safe_left - 1 }
              (neighbors b.rows b.cols row col) [(row, col)]).1) := by
          unfold reveal
          rw [if_neg hv, if_pos hplaced]
          simp only []
          rw [if_neg hfr, if_neg hnm]
          rw [if_pos hz]
          rfl
        have hInv2 : gridInv b.rows b.cols
            (updateCell (place_mines_with b mines_sample).grid row col
              (fun c0 => { c0 with state := CellState.REVEALED })) :=
          gridInv_congr hb2_mine hb2_adj pInv
        have hnomine := flood_no_mine b.rows b.cols (9 * (b.rows * b.cols + 1))
          { place_mines_with b mines_sample with
            mines_placed := true,
            grid := updateCell (place_mines_with b mines_sample).grid row col
              (fun c0 => { c0 with state := CellState.REVEALED }),
            safe_left := (place_mines_with b mines_sample).safe_left - 1 }
          (neighbors b.rows b.cols row col) [(row, col)] hInv2
          (fun q hq => by rw [hb2_mine]; exact pnbr q hq)
          (fun q hq => validate_of_mem_neighbors hq)
          (by
            intro p hp
            rw [List.mem_singleton.mp hp]
            rw [hb2_mine]
            exact pclick)
        obtain ⟨fl, fm, _⟩ := flood_preserves b.rows b.cols (9 * (b.rows * b.cols + 1))
          { place_mines_with b mines_sample with
            mines_placed := true,
            grid := updateCell (place_mines_with b mines_sample).grid row col
              (fun c0 => { c0 with state := CellState.REVEALED }),
            safe_left := (place_mines_with b mines_sample).safe_left - 1 }
          (neighbors b.rows b.cols row col) [(row, col)]
        rw [hrev]
        refine ⟨?_, ?_, ?_, ?_⟩
        · rw [fl]
          exact hlost
        · intro p hp
          rw [fm, hb2_mine]
          have := hnomine p hp
          rw [hb2_mine] at this
          exact this
        · rw [fm, hb2_mine]
          exact pclick
        · intro q hq
          rw [fm, hb2_mine]
          exact pnbr q hq
      · have hrev : reveal b mines_sample row col =
            ([(row, col)],
             { place_mines_with b mines_sample with
               mines_placed := true,
               grid := updateCell (place_mines_with b mines_sample).grid row col
                 (fun c0 => { c0 with state := CellState.REVEALED }),
               safe_left := (place_mines_with b mines_sample).safe_left - 1 }) := by
          unfold reveal
          rw [if_neg hv, if_pos hplaced]
          simp only []
          rw [if_neg hfr, if_neg hnm]
          rw [if_neg hz]
        rw [hrev]
        refine ⟨hlost, ?_, ?_, ?_⟩
        · intro p hp
          rw [List.mem_singleton.mp hp]
          rw [hb2_mine]
          exact pclick
        · rw [hb2_mine]
          exact pclick
        · intro q hq
          rw [hb2_mine]
          exact pnbr q hq

/-- Witness for Claim C10: on the fresh 2 by 2 board with an empty mine
sample (the only sample allowed when (0,0) is clicked, since every other cell
neighbors it), the first reveal floods the whole board, reveals no mine and
does not lose. -/
theorem claim10_witness :
    (reveal blank2 [] 0 0).2.lost = false ∧
    (∀ p ∈ (reveal blank2 [] 0 0).1,
      ((reveal blank2 [] 0 0).2.grid p.1 p.2).has_mine = false) ∧
    (reveal blank2 [] 0 0).1 = [(0, 0), (0, 1), (1, 0), (1, 1)] := by
  have h := claim10_first_reveal_never_mine blank2 [] 0 0 rfl (fun r c => rfl)
    rfl (by simp)
  exact ⟨h.1, h.2.1, by decide⟩

end Minesweeper
